import Mathlib

/-!
Verification of the file-transfer core of the `egnyte` client
(`egnyte/resources.py`): the upload engine (`File.upload`,
`File._chunked_upload`) and the download stream (`FileDownload`).

The HTTP client is abstracted as a deterministic oracle `Server` mapping the
index of an issued request and the request itself to a response.  Each upload
operation returns the trace of issued requests together with its result, so
that properties about how many requests are issued and which headers they
carry can be stated and proved.
-/

/-- HTTP headers: an association list.  A mutation `headers[k] = v` of the
Python dict is modelled as consing `(k, v)` in front; lookups take the first
(most recent) binding, so lookup semantics agree with the dict. -/
abbrev Headers := List (String × String)

/-- Dict lookup: value of the first binding of `key`, if any. -/
def getHeader (hs : Headers) (key : String) : Option String :=
  (hs.find? (fun p => p.1 == key)).map (fun p => p.2)

/-- Dict update `hs[key] = v` (most recent binding shadows older ones). -/
def setHeader (hs : Headers) (key v : String) : Headers :=
  (key, v) :: hs

/-- An HTTP response: success flag of its status code, and its headers. -/
structure Response where
  statusOk : Bool
  headers : Headers

/-- A request issued by the upload engine: target url, request headers, and
the byte range of the chunk sent as the body (its start offset and size). -/
structure Request where
  url : String
  headers : Headers
  chunkPos : Nat
  chunkSize : Nat

/-- The HTTP-client collaborator (`self._client.POST`), abstracted as an
oracle: the `n`-th request issued by an upload call gets response
`server n request`. -/
def Server := Nat → Request → Response

/-- Failures of an upload call.  `transferFailed` models the exception raised
by `exc.default.check_response` on a non-success HTTP status (modelled from
the spec: `egnyte.exc` is not part of the transfer-core source);
`checksumError` models `exc.ChecksumError` with its message and info dict;
`keyError` models a Python `KeyError` on a missing response header. -/
inductive TransferError
  | transferFailed
  | checksumError (msg : String) (info : List (String × Nat))
  | keyError (key : String)
deriving DecidableEq

/-- A seekable in-memory byte source (the file-like object `fp`). -/
structure ByteStream where
  buf : List Nat

/-- The `fp` argument of `File.upload`: either a raw byte string
(`six.binary_type`) or a file-like object. -/
inductive Content
  | bytes (b : List Nat)
  | stream (s : ByteStream)

/-- `if isinstance(fp, six.binary_type): fp = six.BytesIO(fp)` — a raw byte
string is wrapped into an in-memory stream; a stream is left alone. -/
def Content.toStream : Content → ByteStream
  | .bytes b => ⟨b⟩
  | .stream s => s

/-- Modelled from the spec: `base.get_file_size` (not under the transfer-core
source) determines the total size of the source by probing its end with
seek/tell and restoring the position, without consuming it. -/
def get_file_size (s : ByteStream) : Nat := s.buf.length

/-- `base._FileChunk`: a view over the byte range
`[position, position + size)` of the source. -/
structure FileChunk where
  position : Nat
  size : Nat

/-- The SHA-512 digest a chunk accumulates while its bytes are streamed: a
pure function (abstract digest `sha`) of exactly the bytes in the chunk's
range. -/
def chunkSha (sha : List Nat → String) (buf : List Nat) (c : FileChunk) : String :=
  sha ((buf.drop c.position).take c.size)

/-- Modelled from the spec: `base.split_file_into_chunks` (not under the
transfer-core source) splits `[0, size)` into an ordered sequence of
`ceil(size / csz)` chunks of fixed maximum size `csz`, in position order, the
last possibly smaller. -/
def split_file_into_chunks (size csz : Nat) : List FileChunk :=
  if csz = 0 then []
  else (List.range ((size + csz - 1) / csz)).map
    (fun i => FileChunk.mk (i * csz) (min csz (size - i * csz)))

/-- `File._upload_chunk_size`: 100 MiB, used both as the single-vs-chunked
threshold and as the chunk size. -/
def File.uploadChunkSize : Nat := 100 * (1024 * 1024)

/-- `File._upload_chunk_retries`. -/
def File.uploadChunkRetries : Nat := 3

/-- Single-request content url (`pubapi/v1/fs-content...`). -/
def urlContent : String := "pubapi/v1/fs-content"

/-- Chunked content url (`pubapi/v1/fs-content-chunked...`). -/
def urlContentChunked : String := "pubapi/v1/fs-content-chunked"

/-- Outcome of the per-chunk retry loop (`while retries > 0: ...`). -/
inductive RetryResult
  | matched (r : Response) (remaining : Nat)
  | exhausted
  | keyErr

/-- The per-chunk retry loop: POST the chunk, read the server-side per-chunk
checksum header, break on a match, decrement `retries` and repeat on a
mismatch.  Returns the requests issued, the next request index, and how the
loop ended (`matched` keeps the response of the matching attempt and the
value of `retries` at the break; `exhausted` means `retries` reached 0;
`keyErr` models the `KeyError` of a missing checksum header). -/
def chunkRetryLoop (server : Server) (req : Request) (ourSha : String) :
    Nat → Nat → List Request × Nat × RetryResult
  | ctr, 0 => ([], ctr, .exhausted)
  | ctr, fuel + 1 =>
    let r := server ctr req
    match getHeader r.headers "x-egnyte-chunk-sha512-checksum" with
    | none => ([req], ctr + 1, .keyErr)
    | some serverSha =>
      if serverSha = ourSha then ([req], ctr + 1, .matched r (fuel + 1))
      else
        let rest := chunkRetryLoop server req ourSha (ctr + 1) fuel
        (req :: rest.1, rest.2.1, rest.2.2)

/-- The headers of the request for chunk number `n` (1-based): the inherited
headers dict updated with `x-egnyte-chunk-num` and `content-length`, plus the
`x-egnyte-last-chunk` marker when and only when `n` is the final chunk
number. -/
def chunkHeaders (hs : Headers) (n : Nat) (c : FileChunk) (chunkCount : Nat) :
    Headers :=
  let h1 := setHeader hs "x-egnyte-chunk-num" (toString n)
  let h2 := setHeader h1 "content-length" (toString c.size)
  if n = chunkCount then setHeader h2 "x-egnyte-last-chunk" "true" else h2

/-- The request POSTed for chunk number `n`. -/
def chunkRequest (url : String) (hs : Headers) (n : Nat) (c : FileChunk)
    (chunkCount : Nat) : Request :=
  ⟨url, chunkHeaders hs n c chunkCount, c.position, c.size⟩

theorem chunkRequest_chunkPos (url : String) (hs : Headers) (n : Nat)
    (c : FileChunk) (chunkCount : Nat) :
    (chunkRequest url hs n c chunkCount).chunkPos = c.position := rfl

theorem chunkRequest_chunkSize (url : String) (hs : Headers) (n : Nat)
    (c : FileChunk) (chunkCount : Nat) :
    (chunkRequest url hs n c chunkCount).chunkSize = c.size := rfl

/-- The digest of the byte range a request carries (the digest its
`_FileChunk` body accumulates while being sent). -/
def reqSha (sha : List Nat → String) (buf : List Nat) (r : Request) : String :=
  sha ((buf.drop r.chunkPos).take r.chunkSize)

theorem reqSha_chunkRequest (sha : List Nat → String) (buf : List Nat)
    (url : String) (hs : Headers) (n : Nat) (c : FileChunk) (chunkCount : Nat) :
    reqSha sha buf (chunkRequest url hs n c chunkCount) = chunkSha sha buf c := rfl

/-- The chunk loop of `File._chunked_upload`: for each chunk (1-based number
`n`) set the chunk headers (`x-egnyte-chunk-num`, `content-length`, and the
last-chunk marker on the final chunk only), run the retry loop, raise
`ChecksumError` with the chunk number and start position when the retry
budget is exhausted, then `check_response` (non-success status raises
`TransferFailed`), and after chunk 1 store the server-assigned
`x-egnyte-upload-id` into the headers used for all subsequent chunks. -/
def chunkLoop (server : Server) (sha : List Nat → String) (buf : List Nat)
    (url : String) (chunkCount : Nat) :
    List FileChunk → Nat → Headers → Nat → List Request × Except TransferError Unit
  | [], _, _, _ => ([], .ok ())
  | c :: rest, n, headers, ctr =>
    let req : Request := chunkRequest url headers n c chunkCount
    let out := chunkRetryLoop server req (chunkSha sha buf c) ctr
      (max File.uploadChunkRetries 1)
    match out.2.2 with
    | .keyErr => (out.1, .error (.keyError "x-egnyte-chunk-sha512-checksum"))
    | .exhausted =>
      (out.1, .error (.checksumError "Failed to upload file chunk"
        [("chunk_number", n), ("start_position", c.position)]))
    | .matched r _ =>
      if r.statusOk = false then (out.1, .error .transferFailed)
      else if n = 1 then
        match getHeader r.headers "x-egnyte-upload-id" with
        | none => (out.1, .error (.keyError "x-egnyte-upload-id"))
        | some uid =>
          let next := chunkLoop server sha buf url chunkCount rest (n + 1)
            (setHeader (chunkHeaders headers n c chunkCount)
              "x-egnyte-upload-id" uid) out.2.1
          (out.1 ++ next.1, next.2)
      else
        let next := chunkLoop server sha buf url chunkCount rest (n + 1)
          (chunkHeaders headers n c chunkCount) out.2.1
        (out.1 ++ next.1, next.2)

/-- `File._chunked_upload`: split the source into chunks (the chunk count is
needed up front for the last-chunk marker) and run the chunk loop starting
with chunk number 1, empty extra headers and request index 0. -/
def File.chunked_upload (server : Server) (sha : List Nat → String)
    (buf : List Nat) (size : Nat) : List Request × Except TransferError Unit :=
  let chunks := split_file_into_chunks size File.uploadChunkSize
  chunkLoop server sha buf urlContentChunked chunks.length chunks 1 [] 0

/-- The one request of a single-request upload: POST to the content url with
a `Content-length` header equal to the size, the body being the chunk
`[0, size)`. -/
def singleRequest (size : Nat) : Request :=
  ⟨urlContent, [("Content-length", toString size)], 0, size⟩

/-- The effective size used by `File.upload`: the declared size when given,
otherwise the probed size of the source. -/
def effectiveSize (fp : Content) (size? : Option Nat) : Nat :=
  size?.getD (get_file_size fp.toStream)

/-- `File.upload`: wrap a raw byte string into a stream, determine the size
if not declared, then either do the simple one-request upload
(`size < _upload_chunk_size`): POST, `check_response` (non-success raises
`TransferFailed`), compare the `X-Sha512-Checksum` response header with the
locally computed digest and raise `ChecksumError` with empty info on a
mismatch — or delegate to `File.chunked_upload`. -/
def File.upload (server : Server) (sha : List Nat → String) (fp : Content)
    (size? : Option Nat) : List Request × Except TransferError Unit :=
  let stream := fp.toStream
  let size := effectiveSize fp size?
  if size < File.uploadChunkSize then
    let chunk : FileChunk := ⟨0, size⟩
    let req := singleRequest size
    let r := server 0 req
    if r.statusOk = false then ([req], .error .transferFailed)
    else
      match getHeader r.headers "X-Sha512-Checksum" with
      | none => ([req], .error (.keyError "X-Sha512-Checksum"))
      | some serverSha =>
        if serverSha = chunkSha sha stream.buf chunk then ([req], .ok ())
        else ([req], .error (.checksumError "Failed to upload file" []))
  else File.chunked_upload server sha stream.buf size

/-!  Download Stream  -/

/-- Failures of download-stream operations.  `lengthUnavailable` models the
`KeyError` of a missing `content-length` header; `intParseError` the
`ValueError` of a non-numeric header value; `streamClosed` an operation on an
already-closed stream. -/
inductive DownloadError
  | lengthUnavailable
  | intParseError
  | streamClosed
deriving DecidableEq

/-- Modelled from the spec: the streamed-response collaborator wrapped by
`FileDownload` (a `requests` response, outside this repository) — its
headers, its remaining body bytes, and whether it has been released. -/
structure DLResponse where
  headers : Headers
  content : List Nat
  closed : Bool

/-- Modelled from the spec: releasing the response is idempotent. -/
def DLResponse.close (r : DLResponse) : DLResponse := { r with closed := true }

/-- Consecutive blocks of at most `csz` bytes covering `xs`, in order. -/
def chunksOf (csz : Nat) (xs : List Nat) : List (List Nat) :=
  if csz = 0 then []
  else (List.range ((xs.length + csz - 1) / csz)).map
    (fun i => (xs.drop (i * csz)).take csz)

/-- Modelled from the spec: `response.iter_content(chunk_size)` — a lazy,
finite, non-restartable sequence of byte blocks of at most `chunk_size`
bytes; iterating a released stream fails with `StreamClosed`. -/
def DLResponse.iter_content (r : DLResponse) (csz : Nat) :
    Except DownloadError (List (List Nat)) :=
  if r.closed then .error .streamClosed else .ok (chunksOf csz r.content)

/-- Modelled from the spec: `response.iter_lines()` — a lazy, finite,
non-restartable sequence of lines (split on the newline byte); iterating a
released stream fails with `StreamClosed`. -/
def DLResponse.iter_lines (r : DLResponse) :
    Except DownloadError (List (List Nat)) :=
  if r.closed then .error .streamClosed
  else .ok (r.content.splitOn 10)

/-- Modelled from the spec: `response.raw.read(amt)` — up to `amt` bytes from
the underlying transport (all remaining bytes when `amt` is omitted),
advancing the stream; reading a released stream fails with `StreamClosed`. -/
def DLResponse.raw_read (r : DLResponse) (amt : Option Nat) :
    Except DownloadError (List Nat × DLResponse) :=
  if r.closed then .error .streamClosed
  else
    match amt with
    | none => .ok (r.content, { r with content := [] })
    | some a => .ok (r.content.take a, { r with content := r.content.drop a })

/-- `FileDownload`: wraps exactly one server response. -/
structure FileDownload where
  response : DLResponse

/-- `int(...)` applied to a header value: the number denoted by a non-empty
all-digit string, and `none` (a `ValueError`) otherwise. -/
def parseNat (v : String) : Option Nat :=
  if v.data ≠ [] ∧ v.data.all (fun c => c.isDigit) then
    some (v.data.foldl (fun acc c => acc * 10 + (c.toNat - 48)) 0)
  else none

/-- `FileDownload.__len__`: `int(self.response.headers['content-length'])` —
the missing-header `KeyError` is `lengthUnavailable`, the `int(...)` failure
on a non-numeric value is `intParseError`. -/
def FileDownload.len (d : FileDownload) : Except DownloadError Nat :=
  match getHeader d.response.headers "content-length" with
  | none => .error .lengthUnavailable
  | some v =>
    match parseNat v with
    | none => .error .intParseError
    | some n => .ok n

/-- `FileDownload.close`: delegates to the response. -/
def FileDownload.close (d : FileDownload) : FileDownload := ⟨d.response.close⟩

/-- `FileDownload.closed`: delegates to the response. -/
def FileDownload.closedQ (d : FileDownload) : Bool := d.response.closed

/-- `FileDownload.read`: delegates to `self.response.raw.read`. -/
def FileDownload.read (d : FileDownload) (amt : Option Nat) :
    Except DownloadError (List Nat × FileDownload) :=
  match d.response.raw_read amt with
  | .error e => .error e
  | .ok (bs, r) => .ok (bs, ⟨r⟩)

/-- `FileDownload.__iter__`: line iteration, delegated to
`self.response.iter_lines`. -/
def FileDownload.iter_lines (d : FileDownload) :
    Except DownloadError (List (List Nat)) :=
  d.response.iter_lines

/-- Default chunk size of `FileDownload.iter_content`: 16 KiB. -/
def downloadChunkSize : Nat := 16 * 1024

/-- `FileDownload.iter_content`: delegates to `self.response.iter_content`. -/
def FileDownload.iter_content (d : FileDownload) (csz : Nat) :
    Except DownloadError (List (List Nat)) :=
  d.response.iter_content csz

/-- `FileDownload.write_to(fp)`: `with closing(self): for chunk in
self.iter_content(): fp.write(chunk)` — drain the content through the
fixed-size chunk iteration into the sink (a stateful writer that may fail),
and close the stream on every exit path (`contextlib.closing` closes at the
end of the `with` block whether the body returned or raised). -/
def FileDownload.write_to {σ : Type} (d : FileDownload)
    (sink : σ → List Nat → Except DownloadError σ) (s0 : σ) :
    Except DownloadError σ × FileDownload :=
  let body : Except DownloadError σ :=
    match d.iter_content downloadChunkSize with
    | .error e => .error e
    | .ok chunks => chunks.foldlM sink s0
  (body, d.close)

/-!  Helper lemmas  -/

theorem getHeader_setHeader_self (hs : Headers) (k v : String) :
    getHeader (setHeader hs k v) k = some v := by
  simp [getHeader, setHeader, List.find?_cons_of_pos]

theorem getHeader_setHeader_ne (hs : Headers) (k v k' : String) (h : k ≠ k') :
    getHeader (setHeader hs k v) k' = getHeader hs k' := by
  simp only [getHeader, setHeader]
  rw [List.find?_cons_of_neg]
  simp [h]

theorem getHeader_nil (k : String) : getHeader [] k = none := rfl

theorem split_length (size csz : Nat) (h : 0 < csz) :
    (split_file_into_chunks size csz).length = (size + csz - 1) / csz := by
  simp [split_file_into_chunks, Nat.pos_iff_ne_zero.mp h]

theorem split_get (size csz : Nat) (h : 0 < csz) (i : Nat)
    (hi : i < (split_file_into_chunks size csz).length) :
    (split_file_into_chunks size csz).get ⟨i, hi⟩ =
      FileChunk.mk (i * csz) (min csz (size - i * csz)) := by
  simp [split_file_into_chunks, Nat.pos_iff_ne_zero.mp h]

theorem split_get?_eq (size csz : Nat) (h : 0 < csz) (i : Nat)
    (hi : i < (split_file_into_chunks size csz).length) :
    (split_file_into_chunks size csz).get? i
      = some (FileChunk.mk (i * csz) (min csz (size - i * csz))) := by
  rw [List.get?_eq_get hi, split_get size csz h i hi]

theorem split_length_pos (size csz : Nat) (h : 0 < csz) (hs : csz ≤ size) :
    0 < (split_file_into_chunks size csz).length := by
  rw [split_length size csz h]
  have : 1 ≤ (size + csz - 1) / csz := (Nat.one_le_div_iff h).mpr (by omega)
  omega

theorem singleRequest_no_chunk_num (size : Nat) :
    getHeader (singleRequest size).headers "x-egnyte-chunk-num" = none := by
  simp [singleRequest, getHeader, List.find?_cons]

/-- The four possible branches of a small (single-request) upload all issue
exactly the one request `singleRequest size`. -/
theorem upload_small_trace (server : Server) (sha : List Nat → String)
    (fp : Content) (size? : Option Nat)
    (h : effectiveSize fp size? < File.uploadChunkSize) :
    (File.upload server sha fp size?).1 = [singleRequest (effectiveSize fp size?)] := by
  simp only [File.upload]
  rw [if_pos h]
  cases hst : (server 0 (singleRequest (effectiveSize fp size?))).statusOk
  · simp
  · cases hg : getHeader (server 0 (singleRequest (effectiveSize fp size?))).headers
        "X-Sha512-Checksum"
    · simp
    · rename_i v
      by_cases hv : v = chunkSha sha fp.toStream.buf ⟨0, effectiveSize fp size?⟩
      · simp [hv]
      · simp [hv]

/-!  Chunked-upload lemmas  -/

theorem maxRetries_eq : max File.uploadChunkRetries 1 = 3 := by decide

/-- Every request issued by the retry loop is the same chunk request. -/
theorem chunkRetryLoop_mem (server : Server) (req : Request) (ourSha : String) :
    ∀ fuel ctr, ∀ x ∈ (chunkRetryLoop server req ourSha ctr fuel).1, x = req := by
  intro fuel
  induction fuel with
  | zero => intro ctr x hx; simp [chunkRetryLoop] at hx
  | succ k ih =>
    intro ctr x hx
    simp only [chunkRetryLoop] at hx
    cases hh : getHeader (server ctr req).headers "x-egnyte-chunk-sha512-checksum" with
    | none => rw [hh] at hx; simp at hx; exact hx
    | some v =>
      rw [hh] at hx
      by_cases hv : v = ourSha
      · simp [hv] at hx; exact hx
      · simp [hv] at hx
        rcases hx with hx | hx
        · exact hx
        · exact ih (ctr + 1) x hx

/-- A retry loop whose every attempt sees a present but mismatched server
checksum exhausts its budget: it issues `fuel` identical requests and ends
`exhausted`. -/
theorem chunkRetryLoop_mismatch (server : Server) (req : Request) (ourSha : String)
    (hbad : ∀ m, ∃ v,
      getHeader (server m req).headers "x-egnyte-chunk-sha512-checksum" = some v ∧
      v ≠ ourSha) :
    ∀ fuel ctr, chunkRetryLoop server req ourSha ctr fuel =
      (List.replicate fuel req, ctr + fuel, .exhausted) := by
  intro fuel
  induction fuel with
  | zero => intro ctr; simp [chunkRetryLoop]
  | succ k ih =>
    intro ctr
    obtain ⟨v, hv, hne⟩ := hbad ctr
    simp only [chunkRetryLoop]
    rw [hv]
    simp only [if_neg hne, ih (ctr + 1)]
    refine congrArg₂ _ rfl ?_
    refine congrArg₂ _ ?_ rfl
    omega

/-- A retry loop whose first attempt sees a matching server checksum breaks
at once, with the full budget remaining and the first response in hand. -/
theorem chunkRetryLoop_match_first (server : Server) (req : Request)
    (ourSha : String) (ctr fuel : Nat) (hf : 0 < fuel)
    (hm : getHeader (server ctr req).headers "x-egnyte-chunk-sha512-checksum"
      = some ourSha) :
    chunkRetryLoop server req ourSha ctr fuel =
      ([req], ctr + 1, .matched (server ctr req) fuel) := by
  cases fuel with
  | zero => omega
  | succ k =>
    simp only [chunkRetryLoop]
    rw [hm]
    simp

/-- A server response sequence is "good" at a request when its status is a
success, its per-chunk checksum header matches the digest of the chunk the
request carries, and it offers an upload-session identifier. -/
def respondsGood (server : Server) (sha : List Nat → String) (buf : List Nat)
    (m : Nat) (r : Request) : Prop :=
  (server m r).statusOk = true ∧
  getHeader (server m r).headers "x-egnyte-chunk-sha512-checksum"
    = some (reqSha sha buf r) ∧
  (getHeader (server m r).headers "x-egnyte-upload-id").isSome = true

theorem getHeader_chunkHeaders_marker (hs : Headers) (n : Nat) (c : FileChunk)
    (chunkCount : Nat) (hmark : getHeader hs "x-egnyte-last-chunk" = none) :
    getHeader (chunkHeaders hs n c chunkCount) "x-egnyte-last-chunk" =
      if n = chunkCount then some "true" else none := by
  by_cases h : n = chunkCount
  · simp only [chunkHeaders, if_pos h]
    rw [getHeader_setHeader_self]
  · simp only [chunkHeaders, if_neg h]
    rw [getHeader_setHeader_ne _ _ _ _ (by decide),
      getHeader_setHeader_ne _ _ _ _ (by decide), hmark]

theorem getHeader_chunkHeaders_uid (hs : Headers) (n : Nat) (c : FileChunk)
    (chunkCount : Nat) :
    getHeader (chunkHeaders hs n c chunkCount) "x-egnyte-upload-id" =
      getHeader hs "x-egnyte-upload-id" := by
  by_cases h : n = chunkCount
  · simp only [chunkHeaders, if_pos h]
    rw [getHeader_setHeader_ne _ _ _ _ (by decide),
      getHeader_setHeader_ne _ _ _ _ (by decide),
      getHeader_setHeader_ne _ _ _ _ (by decide)]
  · simp only [chunkHeaders, if_neg h]
    rw [getHeader_setHeader_ne _ _ _ _ (by decide),
      getHeader_setHeader_ne _ _ _ _ (by decide)]

/-- One step of the chunk loop when the server checksum matches on the first
attempt and the status is a success: the loop issues exactly the one chunk
request and continues on the tail with chunk number `n + 1` — threading the
`x-egnyte-upload-id` response header into the headers when `n = 1`. -/
theorem chunkLoop_cons_matched (server : Server) (sha : List Nat → String)
    (buf : List Nat) (url : String) (chunkCount : Nat) (c : FileChunk)
    (rest : List FileChunk) (n : Nat) (hs : Headers) (ctr : Nat)
    (hst : (server ctr (chunkRequest url hs n c chunkCount)).statusOk = true)
    (hsha : getHeader (server ctr (chunkRequest url hs n c chunkCount)).headers
      "x-egnyte-chunk-sha512-checksum" = some (chunkSha sha buf c)) :
    (∀ uid, n = 1 →
      getHeader (server ctr (chunkRequest url hs n c chunkCount)).headers
        "x-egnyte-upload-id" = some uid →
      chunkLoop server sha buf url chunkCount (c :: rest) n hs ctr =
        (chunkRequest url hs n c chunkCount ::
          (chunkLoop server sha buf url chunkCount rest (n + 1)
            (setHeader (chunkHeaders hs n c chunkCount) "x-egnyte-upload-id" uid)
            (ctr + 1)).1,
         (chunkLoop server sha buf url chunkCount rest (n + 1)
            (setHeader (chunkHeaders hs n c chunkCount) "x-egnyte-upload-id" uid)
            (ctr + 1)).2)) ∧
    (n ≠ 1 →
      chunkLoop server sha buf url chunkCount (c :: rest) n hs ctr =
        (chunkRequest url hs n c chunkCount ::
          (chunkLoop server sha buf url chunkCount rest (n + 1)
            (chunkHeaders hs n c chunkCount) (ctr + 1)).1,
         (chunkLoop server sha buf url chunkCount rest (n + 1)
            (chunkHeaders hs n c chunkCount) (ctr + 1)).2)) := by
  constructor
  · intro uid hn hu
    subst hn
    simp only [chunkLoop]
    rw [chunkRetryLoop_match_first server _ _ ctr _ (by decide) hsha]
    simp only [hst, hu]
    simp
  · intro hn
    simp only [chunkLoop]
    rw [chunkRetryLoop_match_first server _ _ ctr _ (by decide) hsha]
    simp only [hst, if_neg hn]
    simp

/-- Under a server that is good at every request, the chunk loop succeeds,
issues one request per chunk, each carrying its chunk's byte range, with the
last-chunk marker on exactly the request whose chunk number is the final
one. -/
theorem chunkLoop_good (server : Server) (sha : List Nat → String)
    (buf : List Nat) (url : String) (chunkCount : Nat)
    (hgood : ∀ m r, respondsGood server sha buf m r) :
    ∀ (cs : List FileChunk) (n : Nat) (hs : Headers) (ctr : Nat),
      getHeader hs "x-egnyte-last-chunk" = none →
      n + cs.length = chunkCount + 1 →
      (chunkLoop server sha buf url chunkCount cs n hs ctr).2 = .ok () ∧
      (chunkLoop server sha buf url chunkCount cs n hs ctr).1.length = cs.length ∧
      (∀ i (h1 : i < (chunkLoop server sha buf url chunkCount cs n hs ctr).1.length)
         (h2 : i < cs.length),
        ((chunkLoop server sha buf url chunkCount cs n hs ctr).1.get ⟨i, h1⟩).chunkPos
          = (cs.get ⟨i, h2⟩).position ∧
        ((chunkLoop server sha buf url chunkCount cs n hs ctr).1.get ⟨i, h1⟩).chunkSize
          = (cs.get ⟨i, h2⟩).size ∧
        (getHeader ((chunkLoop server sha buf url chunkCount cs n hs ctr).1.get
            ⟨i, h1⟩).headers "x-egnyte-last-chunk" = some "true" ↔
          n + i = chunkCount)) := by
  intro cs
  induction cs with
  | nil =>
    intro n hs ctr hmark hcount
    refine ⟨rfl, rfl, ?_⟩
    intro i h1 h2
    exact absurd h2 (by simp)
  | cons c rest ih =>
    intro n hs ctr hmark hcount
    obtain ⟨hok, hsha, huid⟩ := hgood ctr (chunkRequest url hs n c chunkCount)
    have hsha' : getHeader (server ctr (chunkRequest url hs n c chunkCount)).headers
        "x-egnyte-chunk-sha512-checksum" = some (chunkSha sha buf c) := by
      rw [hsha, reqSha_chunkRequest]
    obtain ⟨uid, hu⟩ := Option.isSome_iff_exists.mp huid
    have hstep := chunkLoop_cons_matched server sha buf url chunkCount c rest n hs ctr
      hok hsha'
    by_cases hcc : n = chunkCount
    · -- final chunk: the rest is empty
      have hrest : rest = [] := by
        have : rest.length = 0 := by
          simp only [List.length_cons] at hcount
          omega
        exact List.eq_nil_of_length_eq_zero this
      subst hrest
      have heq : chunkLoop server sha buf url chunkCount [c] n hs ctr =
          ([chunkRequest url hs n c chunkCount], .ok ()) := by
        by_cases hn1 : n = 1
        · rw [hstep.1 uid hn1 hu]; rfl
        · rw [hstep.2 hn1]; rfl
      rw [heq]
      refine ⟨rfl, rfl, ?_⟩
      intro i h1 h2
      have hi : i = 0 := by
        simp only [List.length_cons, List.length_nil] at h2
        omega
      subst hi
      refine ⟨rfl, rfl, ?_⟩
      show getHeader (chunkHeaders hs n c chunkCount) "x-egnyte-last-chunk"
          = some "true" ↔ n + 0 = chunkCount
      rw [getHeader_chunkHeaders_marker hs n c chunkCount hmark, if_pos hcc]
      simp [hcc]
    · -- non-final chunk: recurse on the tail
      have hcount2 : (n + 1) + rest.length = chunkCount + 1 := by
        simp only [List.length_cons] at hcount
        omega
      by_cases hn1 : n = 1
      · have heq := hstep.1 uid hn1 hu
        have hmark2 : getHeader (setHeader (chunkHeaders hs n c chunkCount)
            "x-egnyte-upload-id" uid) "x-egnyte-last-chunk" = none := by
          rw [getHeader_setHeader_ne _ _ _ _ (by decide),
            getHeader_chunkHeaders_marker hs n c chunkCount hmark, if_neg hcc]
        obtain ⟨ihok, ihlen, ihidx⟩ := ih (n + 1)
          (setHeader (chunkHeaders hs n c chunkCount) "x-egnyte-upload-id" uid)
          (ctr + 1) hmark2 hcount2
        rw [heq]
        refine ⟨ihok, by simp [ihlen], ?_⟩
        intro i h1 h2
        match i with
        | 0 =>
          refine ⟨rfl, rfl, ?_⟩
          show getHeader (chunkHeaders hs n c chunkCount) "x-egnyte-last-chunk"
              = some "true" ↔ n + 0 = chunkCount
          rw [getHeader_chunkHeaders_marker hs n c chunkCount hmark, if_neg hcc]
          simp [hcc]
        | j + 1 =>
          have h1' : j < (chunkLoop server sha buf url chunkCount rest (n + 1)
              (setHeader (chunkHeaders hs n c chunkCount) "x-egnyte-upload-id" uid)
              (ctr + 1)).1.length := by
            simp only [List.length_cons] at h1
            omega
          have h2' : j < rest.length := by
            simp only [List.length_cons] at h2
            omega
          have hx := ihidx j h1' h2'
          simp only [List.get_eq_getElem, List.getElem_cons_succ] at hx ⊢
          exact ⟨hx.1, hx.2.1, Iff.trans hx.2.2 (by omega)⟩
      · have heq := hstep.2 hn1
        have hmark2 : getHeader (chunkHeaders hs n c chunkCount)
            "x-egnyte-last-chunk" = none := by
          rw [getHeader_chunkHeaders_marker hs n c chunkCount hmark, if_neg hcc]
        obtain ⟨ihok, ihlen, ihidx⟩ := ih (n + 1) (chunkHeaders hs n c chunkCount)
          (ctr + 1) hmark2 hcount2
        rw [heq]
        refine ⟨ihok, by simp [ihlen], ?_⟩
        intro i h1 h2
        match i with
        | 0 =>
          refine ⟨rfl, rfl, ?_⟩
          show getHeader (chunkHeaders hs n c chunkCount) "x-egnyte-last-chunk"
              = some "true" ↔ n + 0 = chunkCount
          rw [getHeader_chunkHeaders_marker hs n c chunkCount hmark, if_neg hcc]
          simp [hcc]
        | j + 1 =>
          have h1' : j < (chunkLoop server sha buf url chunkCount rest (n + 1)
              (chunkHeaders hs n c chunkCount) (ctr + 1)).1.length := by
            simp only [List.length_cons] at h1
            omega
          have h2' : j < rest.length := by
            simp only [List.length_cons] at h2
            omega
          have hx := ihidx j h1' h2'
          simp only [List.get_eq_getElem, List.getElem_cons_succ] at hx ⊢
          exact ⟨hx.1, hx.2.1, Iff.trans hx.2.2 (by omega)⟩

/-- When the server is good at every request for a chunk position before
that of chunk `k`, the loop reaches chunk `k`: the issued trace is a prefix
of `k - n` requests at earlier positions followed by whatever the loop does
from chunk `k` on (with some inherited headers and request counter). -/
theorem chunkLoop_reach (server : Server) (sha : List Nat → String)
    (buf : List Nat) (url : String) (chunkCount csz k : Nat) (hcsz : 0 < csz)
    (hgood : ∀ m r, r.chunkPos < (k - 1) * csz → respondsGood server sha buf m r) :
    ∀ (cs : List FileChunk) (n : Nat) (hs : Headers) (ctr : Nat),
      1 ≤ n → n ≤ k →
      (∀ i (h2 : i < cs.length), (cs.get ⟨i, h2⟩).position = (n - 1 + i) * csz) →
      k - n ≤ cs.length →
      ∃ hs2 ctr2 tr,
        chunkLoop server sha buf url chunkCount cs n hs ctr =
          (tr ++ (chunkLoop server sha buf url chunkCount
              (cs.drop (k - n)) k hs2 ctr2).1,
           (chunkLoop server sha buf url chunkCount
              (cs.drop (k - n)) k hs2 ctr2).2) ∧
        tr.length = k - n ∧
        ∀ req ∈ tr, req.chunkPos < (k - 1) * csz := by
  intro cs
  induction cs with
  | nil =>
    intro n hs ctr hn1 hnk hpos hlen
    have hkn : k = n := by simp at hlen; omega
    subst hkn
    exact ⟨hs, ctr, [], by simp, by simp, by simp⟩
  | cons c rest ih =>
    intro n hs ctr hn1 hnk hpos hlen
    by_cases hkeq : n = k
    · subst hkeq
      refine ⟨hs, ctr, [], ?_, by simp, by simp⟩
      simp
    · have hnk' : n < k := by omega
      have hc0 : c.position = (n - 1) * csz := by
        have := hpos 0 (by simp)
        simpa using this
      have hposlt : c.position < (k - 1) * csz := by
        rw [hc0]
        exact (Nat.mul_lt_mul_right hcsz).mpr (by omega)
      obtain ⟨hok, hsha, huid⟩ :=
        hgood ctr (chunkRequest url hs n c chunkCount) hposlt
      have hsha' : getHeader (server ctr (chunkRequest url hs n c chunkCount)).headers
          "x-egnyte-chunk-sha512-checksum" = some (chunkSha sha buf c) := by
        rw [hsha, reqSha_chunkRequest]
      obtain ⟨uid, hu⟩ := Option.isSome_iff_exists.mp huid
      have hstep := chunkLoop_cons_matched server sha buf url chunkCount c rest n hs ctr
        hok hsha'
      have hposr : ∀ i (h2 : i < rest.length),
          (rest.get ⟨i, h2⟩).position = ((n + 1) - 1 + i) * csz := by
        intro i h2
        have := hpos (i + 1) (by simp; omega)
        simp only [List.get_cons_succ] at this
        rw [this]
        congr 1
        omega
      have hlenr : k - (n + 1) ≤ rest.length := by
        simp at hlen
        omega
      have hdrop : rest.drop (k - (n + 1)) = (c :: rest).drop (k - n) := by
        have : k - n = (k - (n + 1)) + 1 := by omega
        rw [this, List.drop_succ_cons]
      by_cases hn1' : n = 1
      · obtain ⟨hs2, ctr2, tr, heq2, hlen2, hmem2⟩ := ih (n + 1)
          (setHeader (chunkHeaders hs n c chunkCount) "x-egnyte-upload-id" uid)
          (ctr + 1) (by omega) (by omega) hposr hlenr
        refine ⟨hs2, ctr2, chunkRequest url hs n c chunkCount :: tr, ?_, by simp; omega, ?_⟩
        · rw [hstep.1 uid hn1' hu, heq2, hdrop]
          simp
        · intro req hreq
          rcases List.mem_cons.mp hreq with hreq | hreq
          · rw [hreq]; exact hposlt
          · exact hmem2 req hreq
      · obtain ⟨hs2, ctr2, tr, heq2, hlen2, hmem2⟩ := ih (n + 1)
          (chunkHeaders hs n c chunkCount) (ctr + 1) (by omega) (by omega) hposr hlenr
        refine ⟨hs2, ctr2, chunkRequest url hs n c chunkCount :: tr, ?_, by simp; omega, ?_⟩
        · rw [hstep.2 hn1', heq2, hdrop]
          simp
        · intro req hreq
          rcases List.mem_cons.mp hreq with hreq | hreq
          · rw [hreq]; exact hposlt
          · exact hmem2 req hreq

/-- From chunk 2 on, once the headers dict holds the upload-session
identifier, every request the loop ever issues — on any path, including
failing ones — carries that same identifier, and it is never changed. -/
theorem chunkLoop_uid_inv (server : Server) (sha : List Nat → String)
    (buf : List Nat) (url : String) (chunkCount : Nat) :
    ∀ (cs : List FileChunk) (n : Nat) (hs : Headers) (ctr : Nat) (uid : String),
      2 ≤ n → getHeader hs "x-egnyte-upload-id" = some uid →
      ∀ req ∈ (chunkLoop server sha buf url chunkCount cs n hs ctr).1,
        getHeader req.headers "x-egnyte-upload-id" = some uid := by
  intro cs
  induction cs with
  | nil =>
    intro n hs ctr uid hn huid req hreq
    simp [chunkLoop] at hreq
  | cons c rest ih =>
    intro n hs ctr uid hn huid req hreq
    have hreqhd : ∀ x ∈ (chunkRetryLoop server (chunkRequest url hs n c chunkCount)
        (chunkSha sha buf c) ctr (max File.uploadChunkRetries 1)).1,
        getHeader x.headers "x-egnyte-upload-id" = some uid := by
      intro x hx
      rw [chunkRetryLoop_mem server _ _ _ _ x hx]
      show getHeader (chunkHeaders hs n c chunkCount) "x-egnyte-upload-id" = some uid
      rw [getHeader_chunkHeaders_uid, huid]
    simp only [chunkLoop] at hreq
    cases hout : (chunkRetryLoop server (chunkRequest url hs n c chunkCount)
        (chunkSha sha buf c) ctr (max File.uploadChunkRetries 1)).2.2 with
    | keyErr =>
      rw [hout] at hreq
      exact hreqhd req hreq
    | exhausted =>
      rw [hout] at hreq
      exact hreqhd req hreq
    | matched r rem =>
      rw [hout] at hreq
      simp only [] at hreq
      by_cases hst : r.statusOk = false
      · rw [if_pos hst] at hreq
        exact hreqhd req hreq
      · rw [if_neg hst, if_neg (by omega : ¬ n = 1)] at hreq
        rcases List.mem_append.mp hreq with hreq | hreq
        · exact hreqhd req hreq
        · refine ih (n + 1) (chunkHeaders hs n c chunkCount) _ uid (by omega) ?_ req hreq
          rw [getHeader_chunkHeaders_uid, huid]

/-- One step of the chunk loop when the server checksum is present but wrong
on every attempt: the loop issues the chunk request `max(retries, 1)` times
and aborts with `ChecksumError` carrying the chunk number and start
position; the tail is never reached. -/
theorem chunkLoop_cons_mismatch (server : Server) (sha : List Nat → String)
    (buf : List Nat) (url : String) (chunkCount : Nat) (c : FileChunk)
    (rest : List FileChunk) (n : Nat) (hs : Headers) (ctr : Nat)
    (hbadr : ∀ m, ∃ v,
      getHeader (server m (chunkRequest url hs n c chunkCount)).headers
        "x-egnyte-chunk-sha512-checksum" = some v ∧ v ≠ chunkSha sha buf c) :
    chunkLoop server sha buf url chunkCount (c :: rest) n hs ctr =
      (List.replicate 3 (chunkRequest url hs n c chunkCount),
       .error (.checksumError "Failed to upload file chunk"
         [("chunk_number", n), ("start_position", c.position)])) := by
  simp only [chunkLoop]
  rw [chunkRetryLoop_mismatch server _ _ hbadr _ ctr, maxRetries_eq]

/-- One step of the chunk loop when the server checksum matches on the first
attempt but the response status is a failure: the loop issues the chunk
request once and aborts with `TransferFailed`. -/
theorem chunkLoop_cons_badstatus (server : Server) (sha : List Nat → String)
    (buf : List Nat) (url : String) (chunkCount : Nat) (c : FileChunk)
    (rest : List FileChunk) (n : Nat) (hs : Headers) (ctr : Nat)
    (hm : getHeader (server ctr (chunkRequest url hs n c chunkCount)).headers
      "x-egnyte-chunk-sha512-checksum" = some (chunkSha sha buf c))
    (hst : (server ctr (chunkRequest url hs n c chunkCount)).statusOk = false) :
    chunkLoop server sha buf url chunkCount (c :: rest) n hs ctr =
      ([chunkRequest url hs n c chunkCount], .error .transferFailed) := by
  simp only [chunkLoop]
  rw [chunkRetryLoop_match_first server _ _ ctr _ (by decide) hm]
  simp only []
  rw [if_pos hst]

/-- Under a server good before chunk `k` whose checksum never matches at
chunk `k`'s position, the chunked upload fails with `ChecksumError` carrying
chunk number `k` and its start position, after `(k-1) + max(retries, 1)`
requests, and no request is ever issued beyond chunk `k`'s position. -/
theorem chunked_upload_fail_at (server : Server) (sha : List Nat → String)
    (buf : List Nat) (s k : Nat)
    (hk1 : 1 ≤ k)
    (hk2 : k ≤ (s + File.uploadChunkSize - 1) / File.uploadChunkSize)
    (hgood : ∀ m r, r.chunkPos < (k - 1) * File.uploadChunkSize →
      respondsGood server sha buf m r)
    (hbad : ∀ m r, r.chunkPos = (k - 1) * File.uploadChunkSize →
      ∃ v, getHeader (server m r).headers "x-egnyte-chunk-sha512-checksum"
        = some v ∧ v ≠ reqSha sha buf r) :
    (File.chunked_upload server sha buf s).2 =
      .error (.checksumError "Failed to upload file chunk"
        [("chunk_number", k), ("start_position", (k - 1) * File.uploadChunkSize)]) ∧
    (File.chunked_upload server sha buf s).1.length
      = (k - 1) + max File.uploadChunkRetries 1 ∧
    ∀ req ∈ (File.chunked_upload server sha buf s).1,
      req.chunkPos ≤ (k - 1) * File.uploadChunkSize := by
  have hcsz : 0 < File.uploadChunkSize := by decide
  have hdef : File.chunked_upload server sha buf s =
      chunkLoop server sha buf urlContentChunked
        (split_file_into_chunks s File.uploadChunkSize).length
        (split_file_into_chunks s File.uploadChunkSize) 1 [] 0 := rfl
  have hkl : k ≤ (split_file_into_chunks s File.uploadChunkSize).length := by
    rw [split_length s File.uploadChunkSize hcsz]
    exact hk2
  have hpos : ∀ i (h2 : i < (split_file_into_chunks s File.uploadChunkSize).length),
      ((split_file_into_chunks s File.uploadChunkSize).get ⟨i, h2⟩).position
        = (1 - 1 + i) * File.uploadChunkSize := by
    intro i h2
    rw [split_get s File.uploadChunkSize hcsz i h2]
    simp
  obtain ⟨hs2, ctr2, tr, heq, hlen, hmem⟩ := chunkLoop_reach server sha buf
    urlContentChunked (split_file_into_chunks s File.uploadChunkSize).length
    File.uploadChunkSize k hcsz hgood
    (split_file_into_chunks s File.uploadChunkSize) 1 [] 0 (le_refl 1) hk1 hpos
    (by omega)
  have hklt : k - 1 < (split_file_into_chunks s File.uploadChunkSize).length := by
    omega
  have hdrop : (split_file_into_chunks s File.uploadChunkSize).drop (k - 1) =
      (split_file_into_chunks s File.uploadChunkSize).get ⟨k - 1, hklt⟩ ::
        (split_file_into_chunks s File.uploadChunkSize).drop k := by
    have h1 := List.drop_eq_getElem_cons hklt
    have h2 : k - 1 + 1 = k := by omega
    rw [h2] at h1
    exact h1
  have hckpos : ((split_file_into_chunks s File.uploadChunkSize).get
      ⟨k - 1, hklt⟩).position = (k - 1) * File.uploadChunkSize := by
    rw [split_get s File.uploadChunkSize hcsz (k - 1) hklt]
  have hbadr : ∀ m, ∃ v,
      getHeader (server m (chunkRequest urlContentChunked hs2 k
        ((split_file_into_chunks s File.uploadChunkSize).get ⟨k - 1, hklt⟩)
        (split_file_into_chunks s File.uploadChunkSize).length)).headers
        "x-egnyte-chunk-sha512-checksum" = some v ∧
      v ≠ chunkSha sha buf
        ((split_file_into_chunks s File.uploadChunkSize).get ⟨k - 1, hklt⟩) := by
    intro m
    have hreqpos : (chunkRequest urlContentChunked hs2 k
        ((split_file_into_chunks s File.uploadChunkSize).get ⟨k - 1, hklt⟩)
        (split_file_into_chunks s File.uploadChunkSize).length).chunkPos
        = (k - 1) * File.uploadChunkSize := by
      rw [chunkRequest_chunkPos]
      exact hckpos
    obtain ⟨v, hv, hne⟩ := hbad m (chunkRequest urlContentChunked hs2 k
      ((split_file_into_chunks s File.uploadChunkSize).get ⟨k - 1, hklt⟩)
      (split_file_into_chunks s File.uploadChunkSize).length) hreqpos
    rw [reqSha_chunkRequest] at hne
    exact ⟨v, hv, hne⟩
  have hstepk := chunkLoop_cons_mismatch server sha buf urlContentChunked
    (split_file_into_chunks s File.uploadChunkSize).length
    ((split_file_into_chunks s File.uploadChunkSize).get ⟨k - 1, hklt⟩)
    ((split_file_into_chunks s File.uploadChunkSize).drop k) k hs2 ctr2 hbadr
  rw [hdef, heq, hdrop, hstepk]
  refine ⟨by rw [hckpos], ?_, ?_⟩
  · rw [maxRetries_eq]
    simp [hlen]
  · intro req hreq
    rcases List.mem_append.mp hreq with hreq | hreq
    · exact Nat.le_of_lt (hmem req hreq)
    · rw [List.eq_of_mem_replicate hreq, chunkRequest_chunkPos, hckpos]

/-- Under a server good before chunk `k` whose checksum matches at chunk `k`
but whose status there is a failure, the chunked upload fails with
`TransferFailed` (the status check happens only after the checksum
comparison has succeeded). -/
theorem chunked_upload_badstatus_at (server : Server) (sha : List Nat → String)
    (buf : List Nat) (s k : Nat)
    (hk1 : 1 ≤ k)
    (hk2 : k ≤ (s + File.uploadChunkSize - 1) / File.uploadChunkSize)
    (hgood : ∀ m r, r.chunkPos < (k - 1) * File.uploadChunkSize →
      respondsGood server sha buf m r)
    (hmatch : ∀ m r, r.chunkPos = (k - 1) * File.uploadChunkSize →
      getHeader (server m r).headers "x-egnyte-chunk-sha512-checksum"
        = some (reqSha sha buf r))
    (hstatus : ∀ m r, r.chunkPos = (k - 1) * File.uploadChunkSize →
      (server m r).statusOk = false) :
    (File.chunked_upload server sha buf s).2 = .error .transferFailed := by
  have hcsz : 0 < File.uploadChunkSize := by decide
  have hdef : File.chunked_upload server sha buf s =
      chunkLoop server sha buf urlContentChunked
        (split_file_into_chunks s File.uploadChunkSize).length
        (split_file_into_chunks s File.uploadChunkSize) 1 [] 0 := rfl
  have hkl : k ≤ (split_file_into_chunks s File.uploadChunkSize).length := by
    rw [split_length s File.uploadChunkSize hcsz]
    exact hk2
  have hpos : ∀ i (h2 : i < (split_file_into_chunks s File.uploadChunkSize).length),
      ((split_file_into_chunks s File.uploadChunkSize).get ⟨i, h2⟩).position
        = (1 - 1 + i) * File.uploadChunkSize := by
    intro i h2
    rw [split_get s File.uploadChunkSize hcsz i h2]
    simp
  obtain ⟨hs2, ctr2, tr, heq, hlen, hmem⟩ := chunkLoop_reach server sha buf
    urlContentChunked (split_file_into_chunks s File.uploadChunkSize).length
    File.uploadChunkSize k hcsz hgood
    (split_file_into_chunks s File.uploadChunkSize) 1 [] 0 (le_refl 1) hk1 hpos
    (by omega)
  have hklt : k - 1 < (split_file_into_chunks s File.uploadChunkSize).length := by
    omega
  have hdrop : (split_file_into_chunks s File.uploadChunkSize).drop (k - 1) =
      (split_file_into_chunks s File.uploadChunkSize).get ⟨k - 1, hklt⟩ ::
        (split_file_into_chunks s File.uploadChunkSize).drop k := by
    have h1 := List.drop_eq_getElem_cons hklt
    have h2 : k - 1 + 1 = k := by omega
    rw [h2] at h1
    exact h1
  have hckpos : ((split_file_into_chunks s File.uploadChunkSize).get
      ⟨k - 1, hklt⟩).position = (k - 1) * File.uploadChunkSize := by
    rw [split_get s File.uploadChunkSize hcsz (k - 1) hklt]
  have hreqpos : (chunkRequest urlContentChunked hs2 k
      ((split_file_into_chunks s File.uploadChunkSize).get ⟨k - 1, hklt⟩)
      (split_file_into_chunks s File.uploadChunkSize).length).chunkPos
      = (k - 1) * File.uploadChunkSize := by
    rw [chunkRequest_chunkPos]
    exact hckpos
  have hm := hmatch ctr2 (chunkRequest urlContentChunked hs2 k
    ((split_file_into_chunks s File.uploadChunkSize).get ⟨k - 1, hklt⟩)
    (split_file_into_chunks s File.uploadChunkSize).length) hreqpos
  rw [reqSha_chunkRequest] at hm
  have hstepk := chunkLoop_cons_badstatus server sha buf urlContentChunked
    (split_file_into_chunks s File.uploadChunkSize).length
    ((split_file_into_chunks s File.uploadChunkSize).get ⟨k - 1, hklt⟩)
    ((split_file_into_chunks s File.uploadChunkSize).drop k) k hs2 ctr2
    hm (hstatus ctr2 _ hreqpos)
  rw [hdef, heq, hdrop, hstepk]

def sha0 : List Nat → String := fun _ => "D"

def srvSimple : Server := fun _ _ => ⟨true, [("X-Sha512-Checksum", "D")]⟩

/-- C2: a chunked upload in which every chunk's checksum matches on the
first attempt issues exactly `ceil(s / chunkSize)` chunk requests, in
position order with full-size chunks except a smaller final one, and the
last-chunk marker is on the final request and on no other. -/
theorem chunked_upload_good_requests (server : Server) (sha : List Nat → String)
    (buf : List Nat) (s : Nat) (hs : File.uploadChunkSize ≤ s)
    (hgood : ∀ m r, respondsGood server sha buf m r) :
    (File.chunked_upload server sha buf s).2 = .ok () ∧
    (File.chunked_upload server sha buf s).1.length
      = (s + File.uploadChunkSize - 1) / File.uploadChunkSize ∧
    ∀ i (h1 : i < (File.chunked_upload server sha buf s).1.length),
      ((File.chunked_upload server sha buf s).1.get ⟨i, h1⟩).chunkPos
        = i * File.uploadChunkSize ∧
      ((File.chunked_upload server sha buf s).1.get ⟨i, h1⟩).chunkSize
        = min File.uploadChunkSize (s - i * File.uploadChunkSize) ∧
      (getHeader ((File.chunked_upload server sha buf s).1.get ⟨i, h1⟩).headers
          "x-egnyte-last-chunk" = some "true" ↔
        i + 1 = (File.chunked_upload server sha buf s).1.length) := by
  have hcsz : 0 < File.uploadChunkSize := by decide
  have hdef : File.chunked_upload server sha buf s =
      chunkLoop server sha buf urlContentChunked
        (split_file_into_chunks s File.uploadChunkSize).length
        (split_file_into_chunks s File.uploadChunkSize) 1 [] 0 := rfl
  obtain ⟨hok, hlen, hidx⟩ := chunkLoop_good server sha buf urlContentChunked
    (split_file_into_chunks s File.uploadChunkSize).length hgood
    (split_file_into_chunks s File.uploadChunkSize) 1 [] 0 rfl (by omega)
  rw [hdef]
  refine ⟨hok, by rw [hlen, split_length s File.uploadChunkSize hcsz], ?_⟩
  intro i h1
  have h2 : i < (split_file_into_chunks s File.uploadChunkSize).length := by
    rw [← hlen]; exact h1
  obtain ⟨hpos, hsz, hmk⟩ := hidx i h1 h2
  rw [split_get s File.uploadChunkSize hcsz i h2] at hpos hsz
  refine ⟨hpos, hsz, ?_⟩
  rw [hmk, hlen]
  omega

def srvGood (sha : List Nat → String) (buf : List Nat) : Server := fun _ r =>
  ⟨true, [("x-egnyte-chunk-sha512-checksum", reqSha sha buf r),
          ("x-egnyte-upload-id", "sid-1")]⟩

theorem chunked_upload_good_requests_witness :
    File.uploadChunkSize ≤ 262144000 ∧
    (File.chunked_upload (srvGood sha0 []) sha0 [] 262144000).2 = .ok () ∧
    (File.chunked_upload (srvGood sha0 []) sha0 [] 262144000).1.length = 3 ∧
    ((File.chunked_upload (srvGood sha0 []) sha0 [] 262144000).1.get
      ⟨0, by decide⟩).chunkSize = 104857600 ∧
    ((File.chunked_upload (srvGood sha0 []) sha0 [] 262144000).1.get
      ⟨1, by decide⟩).chunkPos = 104857600 ∧
    ((File.chunked_upload (srvGood sha0 []) sha0 [] 262144000).1.get
      ⟨2, by decide⟩).chunkSize = 52428800 ∧
    getHeader (((File.chunked_upload (srvGood sha0 []) sha0 [] 262144000).1.get
      ⟨2, by decide⟩)).headers "x-egnyte-last-chunk" = some "true" := by
  have h := chunked_upload_good_requests (srvGood sha0 []) sha0 [] 262144000
    (by decide) (fun m r => ⟨rfl, rfl, rfl⟩)
  refine ⟨by decide, h.1, ?_, ?_, ?_, ?_, ?_⟩
  · exact h.2.1.trans (by decide)
  · exact (h.2.2 0 (by decide)).2.1.trans (by decide)
  · exact (h.2.2 1 (by decide)).1.trans (by decide)
  · exact (h.2.2 2 (by decide)).2.1.trans (by decide)
  · refine (h.2.2 2 (by decide)).2.2.mpr ?_
    rw [h.2.1]
    decide

/-- C3: if the server-reported per-chunk checksum differs from the locally
computed digest on every one of the `max(maxRetries, 1)` attempts for chunk
`k` (with the server behaving well before chunk `k`), the upload fails with
`ChecksumError` carrying `chunk_number = k` and the chunk's start position,
after exactly `(k-1) + max(maxRetries, 1)` requests, and no request for any
chunk after `k` is ever issued. -/
theorem chunked_upload_checksum_exhausted (server : Server)
    (sha : List Nat → String) (buf : List Nat) (s k : Nat)
    (hk1 : 1 ≤ k)
    (hk2 : k ≤ (s + File.uploadChunkSize - 1) / File.uploadChunkSize)
    (hgood : ∀ m r, r.chunkPos < (k - 1) * File.uploadChunkSize →
      respondsGood server sha buf m r)
    (hbad : ∀ m r, r.chunkPos = (k - 1) * File.uploadChunkSize →
      ∃ v, getHeader (server m r).headers "x-egnyte-chunk-sha512-checksum"
        = some v ∧ v ≠ reqSha sha buf r) :
    (File.chunked_upload server sha buf s).2 =
      .error (.checksumError "Failed to upload file chunk"
        [("chunk_number", k), ("start_position", (k - 1) * File.uploadChunkSize)]) ∧
    (File.chunked_upload server sha buf s).1.length
      = (k - 1) + max File.uploadChunkRetries 1 ∧
    ∀ req ∈ (File.chunked_upload server sha buf s).1,
      req.chunkPos ≤ (k - 1) * File.uploadChunkSize :=
  chunked_upload_fail_at server sha buf s k hk1 hk2 hgood hbad

def srvBad2 (sha : List Nat → String) (buf : List Nat) : Server := fun _ r =>
  if r.chunkPos < File.uploadChunkSize then
    ⟨true, [("x-egnyte-chunk-sha512-checksum", reqSha sha buf r),
            ("x-egnyte-upload-id", "sid-1")]⟩
  else ⟨true, [("x-egnyte-chunk-sha512-checksum", "BAD")]⟩

theorem chunked_upload_checksum_exhausted_witness :
    1 ≤ 2 ∧
    2 ≤ (262144000 + File.uploadChunkSize - 1) / File.uploadChunkSize ∧
    (File.chunked_upload (srvBad2 sha0 []) sha0 [] 262144000).2 =
      .error (.checksumError "Failed to upload file chunk"
        [("chunk_number", 2), ("start_position", (2 - 1) * File.uploadChunkSize)]) ∧
    (File.chunked_upload (srvBad2 sha0 []) sha0 [] 262144000).1.length
      = (2 - 1) + max File.uploadChunkRetries 1 := by
  have h := chunked_upload_checksum_exhausted (srvBad2 sha0 []) sha0 [] 262144000 2
    (by decide) (by decide)
    (fun m r hr => by
      unfold respondsGood srvBad2
      rw [if_pos (by omega : r.chunkPos < File.uploadChunkSize)]
      exact ⟨rfl, rfl, rfl⟩)
    (fun m r hr => by
      refine ⟨"BAD", ?_, ?_⟩
      · show getHeader ((srvBad2 sha0 [] m r).headers) "x-egnyte-chunk-sha512-checksum"
          = some "BAD"
        unfold srvBad2
        rw [if_neg (by omega : ¬ r.chunkPos < File.uploadChunkSize)]
        rfl
      · intro heq
        simp [reqSha, sha0] at heq)
  exact ⟨by decide, by decide, h.1, h.2.1⟩

/-- C4: in every chunked upload whose first chunk succeeds with a fixed
upload-session identifier in the server's response, every request after the
first carries that same identifier in its headers, unchanged for the whole
upload — whatever the server does on later chunks. -/
theorem chunked_upload_session_id_threaded (server : Server)
    (sha : List Nat → String) (buf : List Nat) (s : Nat) (uid : String)
    (hsz : File.uploadChunkSize ≤ s)
    (h0 : ∀ m r, r.chunkPos = 0 →
      (server m r).statusOk = true ∧
      getHeader (server m r).headers "x-egnyte-chunk-sha512-checksum"
        = some (reqSha sha buf r) ∧
      getHeader (server m r).headers "x-egnyte-upload-id" = some uid) :
    ∀ req ∈ (File.chunked_upload server sha buf s).1.drop 1,
      getHeader req.headers "x-egnyte-upload-id" = some uid := by
  have hcsz : 0 < File.uploadChunkSize := by decide
  have hdef : File.chunked_upload server sha buf s =
      chunkLoop server sha buf urlContentChunked
        (split_file_into_chunks s File.uploadChunkSize).length
        (split_file_into_chunks s File.uploadChunkSize) 1 [] 0 := rfl
  have hlenpos := split_length_pos s File.uploadChunkSize hcsz hsz
  rw [hdef]
  cases hc : split_file_into_chunks s File.uploadChunkSize with
  | nil => rw [hc] at hlenpos; simp at hlenpos
  | cons c1 rest =>
    have hc1pos : c1.position = 0 := by
      have hg := split_get?_eq s File.uploadChunkSize hcsz 0 (by omega)
      rw [hc] at hg
      simp only [List.get?_cons_zero, Option.some.injEq] at hg
      rw [hg]
      simp
    have hreq1pos : (chunkRequest urlContentChunked [] 1 c1
        (c1 :: rest).length).chunkPos = 0 := by
      rw [chunkRequest_chunkPos]
      exact hc1pos
    obtain ⟨hst, hshaR, hu⟩ := h0 0 (chunkRequest urlContentChunked [] 1 c1
      (c1 :: rest).length) hreq1pos
    have hsha' : getHeader (server 0 (chunkRequest urlContentChunked [] 1 c1
        (c1 :: rest).length)).headers "x-egnyte-chunk-sha512-checksum"
        = some (chunkSha sha buf c1) := by
      rw [hshaR, reqSha_chunkRequest]
    have hstep := (chunkLoop_cons_matched server sha buf urlContentChunked
      (c1 :: rest).length c1 rest 1 [] 0 hst hsha').1 uid rfl hu
    rw [hstep]
    intro req hreq
    rw [List.drop_succ_cons, List.drop_zero] at hreq
    refine chunkLoop_uid_inv server sha buf urlContentChunked (c1 :: rest).length
      rest 2 _ 1 uid (by omega) ?_ req hreq
    rw [getHeader_setHeader_self]

set_option maxRecDepth 8000 in
theorem chunked_upload_session_id_threaded_witness :
    File.uploadChunkSize ≤ 262144000 ∧
    getHeader (((File.chunked_upload (srvGood sha0 []) sha0 [] 262144000).1.drop 1).get
      ⟨0, by decide⟩).headers "x-egnyte-upload-id" = some "sid-1" :=
  ⟨by decide,
   chunked_upload_session_id_threaded (srvGood sha0 []) sha0 [] 262144000 "sid-1"
     (by decide) (fun m r hr => ⟨rfl, rfl, rfl⟩) _
     (List.get_mem _ 0 (by decide))⟩

/-- C5: in the chunk loop the HTTP success-status check runs only after the
per-chunk checksum comparison has succeeded: at a chunk whose responses all
have a failure status, a never-matching checksum is reported as
`ChecksumError` (not `TransferFailed`), while a matching checksum surfaces
the status failure as `TransferFailed`. -/
theorem chunked_upload_status_after_checksum (server : Server)
    (sha : List Nat → String) (buf : List Nat) (s k : Nat)
    (hk1 : 1 ≤ k)
    (hk2 : k ≤ (s + File.uploadChunkSize - 1) / File.uploadChunkSize)
    (hgood : ∀ m r, r.chunkPos < (k - 1) * File.uploadChunkSize →
      respondsGood server sha buf m r)
    (hstatus : ∀ m r, r.chunkPos = (k - 1) * File.uploadChunkSize →
      (server m r).statusOk = false) :
    ((∀ m r, r.chunkPos = (k - 1) * File.uploadChunkSize →
        ∃ v, getHeader (server m r).headers "x-egnyte-chunk-sha512-checksum"
          = some v ∧ v ≠ reqSha sha buf r) →
      (File.chunked_upload server sha buf s).2 =
        .error (.checksumError "Failed to upload file chunk"
          [("chunk_number", k),
           ("start_position", (k - 1) * File.uploadChunkSize)])) ∧
    ((∀ m r, r.chunkPos = (k - 1) * File.uploadChunkSize →
        getHeader (server m r).headers "x-egnyte-chunk-sha512-checksum"
          = some (reqSha sha buf r)) →
      (File.chunked_upload server sha buf s).2 = .error .transferFailed) :=
  ⟨fun hbad => (chunked_upload_fail_at server sha buf s k hk1 hk2 hgood hbad).1,
   fun hmatch =>
     chunked_upload_badstatus_at server sha buf s k hk1 hk2 hgood hmatch hstatus⟩

def srvC5 (sha : List Nat → String) (buf : List Nat) : Server := fun _ r =>
  if r.chunkPos < File.uploadChunkSize then
    ⟨true, [("x-egnyte-chunk-sha512-checksum", reqSha sha buf r),
            ("x-egnyte-upload-id", "sid-1")]⟩
  else ⟨false, [("x-egnyte-chunk-sha512-checksum", reqSha sha buf r)]⟩

theorem chunked_upload_status_after_checksum_witness :
    1 ≤ 2 ∧
    2 ≤ (262144000 + File.uploadChunkSize - 1) / File.uploadChunkSize ∧
    (File.chunked_upload (srvC5 sha0 []) sha0 [] 262144000).2 =
      .error .transferFailed := by
  have h := chunked_upload_status_after_checksum (srvC5 sha0 []) sha0 [] 262144000 2
    (by decide) (by decide)
    (fun m r hr => by
      unfold respondsGood srvC5
      rw [if_pos (by omega : r.chunkPos < File.uploadChunkSize)]
      exact ⟨rfl, rfl, rfl⟩)
    (fun m r hr => by
      show (srvC5 sha0 [] m r).statusOk = false
      unfold srvC5
      rw [if_neg (by omega : ¬ r.chunkPos < File.uploadChunkSize)])
  refine ⟨by decide, by decide, h.2 ?_⟩
  intro m r hr
  show getHeader ((srvC5 sha0 [] m r).headers) "x-egnyte-chunk-sha512-checksum"
    = some (reqSha sha0 [] r)
  unfold srvC5
  rw [if_neg (by omega : ¬ r.chunkPos < File.uploadChunkSize)]
  rfl

/-!  Claim theorems: single-request upload  -/

/-- C1: with a determinable content size `s`, `upload` performs exactly one
single request (with no chunk-numbered header) when `s` is strictly below the
100 MiB threshold, and performs the chunked upload when `s` is at or above
it. -/
theorem upload_threshold_decision (server : Server) (sha : List Nat → String)
    (fp : Content) (size? : Option Nat) :
    (effectiveSize fp size? < File.uploadChunkSize →
      (File.upload server sha fp size?).1.length = 1 ∧
      ∀ req ∈ (File.upload server sha fp size?).1,
        getHeader req.headers "x-egnyte-chunk-num" = none) ∧
    (File.uploadChunkSize ≤ effectiveSize fp size? →
      File.upload server sha fp size? =
        File.chunked_upload server sha fp.toStream.buf (effectiveSize fp size?)) := by
  constructor
  · intro h
    rw [upload_small_trace server sha fp size? h]
    refine ⟨rfl, ?_⟩
    intro req hreq
    rw [List.mem_singleton] at hreq
    rw [hreq]
    exact singleRequest_no_chunk_num _
  · intro h
    simp only [File.upload]
    rw [if_neg (by omega)]

theorem upload_threshold_decision_witness :
    effectiveSize (Content.bytes [1, 2, 3]) none < File.uploadChunkSize ∧
    (File.upload srvSimple sha0 (Content.bytes [1, 2, 3]) none).1.length = 1 :=
  ⟨by decide,
   ((upload_threshold_decision srvSimple sha0 (Content.bytes [1, 2, 3]) none).1
     (by decide)).1⟩

/-- C6: for a single-request upload, a non-success status fails with
`TransferFailed` before any checksum comparison; on a success status a
mismatch between the local digest and the `X-Sha512-Checksum` response header
fails with `ChecksumError` carrying an empty info dict — after exactly one
request, with no retry — and a match returns success with no value. -/
theorem single_upload_outcomes (server : Server) (sha : List Nat → String)
    (fp : Content) (size? : Option Nat)
    (h : effectiveSize fp size? < File.uploadChunkSize) :
    (File.upload server sha fp size?).1 = [singleRequest (effectiveSize fp size?)] ∧
    ((server 0 (singleRequest (effectiveSize fp size?))).statusOk = false →
      (File.upload server sha fp size?).2 = .error .transferFailed) ∧
    (∀ v, (server 0 (singleRequest (effectiveSize fp size?))).statusOk = true →
      getHeader (server 0 (singleRequest (effectiveSize fp size?))).headers
          "X-Sha512-Checksum" = some v →
      v ≠ chunkSha sha fp.toStream.buf ⟨0, effectiveSize fp size?⟩ →
      (File.upload server sha fp size?).2 =
        .error (.checksumError "Failed to upload file" [])) ∧
    ((server 0 (singleRequest (effectiveSize fp size?))).statusOk = true →
      getHeader (server 0 (singleRequest (effectiveSize fp size?))).headers
          "X-Sha512-Checksum"
        = some (chunkSha sha fp.toStream.buf ⟨0, effectiveSize fp size?⟩) →
      (File.upload server sha fp size?).2 = .ok ()) := by
  refine ⟨upload_small_trace server sha fp size? h, ?_, ?_, ?_⟩
  · intro hst
    simp only [File.upload]
    rw [if_pos h]
    simp [hst]
  · intro v hst hg hv
    simp only [File.upload]
    rw [if_pos h]
    simp [hst, hg, hv]
  · intro hst hg
    simp only [File.upload]
    rw [if_pos h]
    simp [hst, hg]

theorem single_upload_outcomes_witness :
    effectiveSize (Content.bytes [7]) none < File.uploadChunkSize ∧
    (File.upload srvSimple sha0 (Content.bytes [7]) none).2 = .ok () :=
  ⟨by decide,
   (single_upload_outcomes srvSimple sha0 (Content.bytes [7]) none
     (by decide)).2.2.2 rfl rfl⟩

/-- C10: a raw byte string passed to `upload` is first wrapped into an
in-memory seekable byte stream, before any size determination or upload
decision, so uploading the bytes and uploading a fresh stream holding exactly
those bytes behave identically. -/
theorem upload_bytes_wrapped (server : Server) (sha : List Nat → String)
    (b : List Nat) (size? : Option Nat) :
    File.upload server sha (Content.bytes b) size? =
      File.upload server sha (Content.stream ⟨b⟩) size? := rfl

/-!  Claim theorems: download stream  -/

/-- C7: `length()` returns the integer value of the response's
`Content-Length` header when present, and fails with `LengthUnavailable`
when the header is absent. -/
theorem download_length_header (d : FileDownload) :
    (∀ v n, getHeader d.response.headers "content-length" = some v →
      parseNat v = some n → d.len = .ok n) ∧
    (getHeader d.response.headers "content-length" = none →
      d.len = .error .lengthUnavailable) := by
  constructor
  · intro v n hv hn
    simp [FileDownload.len, hv, hn]
  · intro hnone
    simp [FileDownload.len, hnone]

def dlOpen : FileDownload := ⟨⟨[("content-length", "3")], [1, 2, 3], false⟩⟩

theorem download_length_header_witness :
    getHeader dlOpen.response.headers "content-length" = some "3" ∧
    parseNat "3" = some 3 ∧
    dlOpen.len = .ok 3 :=
  ⟨rfl, by decide, (download_length_header dlOpen).1 "3" 3 rfl (by decide)⟩

/-- C8: `writeTo(sink)` drains the content through the fixed-size chunk
iteration into the sink, and the underlying response is closed on every exit
path — normal completion, sink failure, or iteration failure — with
`closed()` reporting true afterward. -/
theorem write_to_drains_and_closes {σ : Type} (d : FileDownload)
    (sink : σ → List Nat → Except DownloadError σ) (s0 : σ) :
    ((d.write_to sink s0).2).closedQ = true ∧
    (d.response.closed = false →
      (d.write_to sink s0).1 =
        (chunksOf downloadChunkSize d.response.content).foldlM sink s0) := by
  constructor
  · rfl
  · intro h
    simp [FileDownload.write_to, FileDownload.iter_content,
      DLResponse.iter_content, h]

def sinkFail : Unit → List Nat → Except DownloadError Unit :=
  fun _ _ => .error .streamClosed

theorem write_to_drains_and_closes_witness :
    dlOpen.response.closed = false ∧
    ((dlOpen.write_to sinkFail ()).2).closedQ = true ∧
    (dlOpen.write_to sinkFail ()).1 =
      (chunksOf downloadChunkSize dlOpen.response.content).foldlM sinkFail () :=
  ⟨rfl, (write_to_drains_and_closes dlOpen sinkFail ()).1,
   (write_to_drains_and_closes dlOpen sinkFail ()).2 rfl⟩

/-- C9: once a download stream is closed, every read and iterate operation
fails with `StreamClosed`, and `close()` on an already-closed stream is a
no-op rather than an error. -/
theorem download_stream_closed_state (d : FileDownload) (h : d.closedQ = true) :
    (∀ amt, d.read amt = .error .streamClosed) ∧
    (∀ csz, d.iter_content csz = .error .streamClosed) ∧
    d.iter_lines = .error .streamClosed ∧
    d.close = d := by
  have hr : d.response.closed = true := h
  refine ⟨?_, ?_, ?_, ?_⟩
  · intro amt
    simp [FileDownload.read, DLResponse.raw_read, hr]
  · intro csz
    simp [FileDownload.iter_content, DLResponse.iter_content, hr]
  · simp [FileDownload.iter_lines, DLResponse.iter_lines, hr]
  · obtain ⟨⟨hs, c, cl⟩⟩ := d
    simp only [FileDownload.closedQ] at h
    simp only [FileDownload.close, DLResponse.close]
    simp_all

def dlClosed : FileDownload := ⟨⟨[], [4, 5], true⟩⟩

theorem download_stream_closed_state_witness :
    dlClosed.closedQ = true ∧
    dlClosed.read none = .error .streamClosed ∧
    dlClosed.close = dlClosed :=
  ⟨rfl, (download_stream_closed_state dlClosed rfl).1 none,
   (download_stream_closed_state dlClosed rfl).2.2.2⟩
